import Mathlib

/-!
Verification of the structure-aware segmentation and two-stage retrieval
pipeline (OWPML RAG system).

The Python sources under `src/rag/` are shallowly embedded here.  Text is
modelled as `List Char` (Python strings index by code point, so `List Char`
lengths and slices coincide with Python `len` and slicing).  Python dicts
used as chunk metadata are modelled as association lists with
prepend-shadowing (`mset`/`mfind`), which matches `dict.update` followed by
first-wins lookup.  External collaborators (the cross-encoder scoring model,
the OpenAI generation call, the Chroma collection and the langchain text
splitter) are passed in as function parameters, mirroring the spec's view of
them as external interfaces; the Chroma collection query itself is modelled
from the spec (see `colQuery`).  Numeric scores and distances delivered by
external models are modelled as `Int` (their ordering is all the code uses).
-/

namespace OWPML

/-- Text is a list of characters, matching Python's code-point indexing. -/
abbrev Chars := List Char

/-- Python's `\s` / `str.strip` whitespace set (ASCII part; the sources only
ever meet these characters). -/
def pySpace (c : Char) : Bool :=
  c = ' ' || c = '\t' || c = '\n' || c = '\r' || c = '\x0b' || c = '\x0c'

/-- Python `str.strip()`: drop leading and trailing whitespace. -/
def strip (l : Chars) : Chars :=
  ((l.dropWhile pySpace).reverse.dropWhile pySpace).reverse

/-- Python `text.split('\n')`: split at every newline, keeping empty pieces. -/
def splitLines : Chars → List Chars
  | [] => [[]]
  | c :: rest =>
    if c = '\n' then [] :: splitLines rest
    else
      match splitLines rest with
      | [] => [[c]]
      | l :: ls => (c :: l) :: ls

/-- Python `'\n'.join(lines)`. -/
def joinLines : List Chars → Chars
  | [] => []
  | [l] => l
  | l :: ls => l ++ '\n' :: joinLines ls

/-- Python `sep.join(parts)` for an arbitrary separator. -/
def joinSep (sep : Chars) : List Chars → Chars
  | [] => []
  | [p] => p
  | p :: ps => p ++ sep ++ joinSep sep ps

/-- Python slicing `t[a:b]` (with `a ≤ b`, as used by the sources). -/
def sliceText (t : Chars) (a b : Nat) : Chars := (t.take b).drop a

/-! ## Regex matchers (src/rag/structure_chunker.py lines 34-39,
src/rag/chunker.py lines 55-56)

Each compiled pattern is embedded as an explicit matcher, including the one
backtracking situation a greedy `\s+`/non-greedy `(.+?)` can produce. -/

/-- Matcher for `^제\s*(\d+)\s*장\s+(.+)$` applied with `re.match` to a line
holding no newline.  Returns `(group 1, group 2)`.  When everything after the
mandatory whitespace run is empty, the regex backtracks and `(.+)` captures
the final whitespace character. -/
def matchChapter (l : Chars) : Option (Chars × Chars) :=
  match l with
  | '제' :: rest =>
    let r1 := rest.dropWhile pySpace
    let num := r1.takeWhile Char.isDigit
    if num.isEmpty then none
    else
      match (r1.dropWhile Char.isDigit).dropWhile pySpace with
      | '장' :: r3 =>
        let ws := r3.takeWhile pySpace
        let tl := r3.dropWhile pySpace
        if ws.isEmpty then none
        else if tl.isEmpty then
          match ws.reverse with
          | w :: _ :: _ => some (num, [w])
          | _ => none
        else some (num, tl)
      | _ => none
  | _ => none

/-- Helper for the optional group `(?:\((.+?)\))?`: if the input starts with
`(` and a `)` occurs after at least one further character, the non-greedy
capture is everything up to that first admissible `)`. -/
def parenGroup (l : Chars) : Option (Chars × Chars) :=
  match l with
  | '(' :: c0 :: s1 =>
    if s1.contains ')' then
      some (c0 :: s1.takeWhile (fun c => c ≠ ')'),
            (s1.dropWhile (fun c => c ≠ ')')).drop 1)
    else none
  | _ => none

/-- Matcher for `^제\s*(\d+)\s*조\s*(?:\((.+?)\))?(.*)$` applied with
`re.match` to a line holding no newline.  Returns
`(group 1, group 2?, group 3)`.  The same acceptance also embeds the
unanchored pattern `제\s*(\d+)\s*조\s*(?:\((.+?)\))?` of
src/rag/chunker.py (which simply has no `(.*)$` tail). -/
def matchArticle (l : Chars) : Option (Chars × Option Chars × Chars) :=
  match l with
  | '제' :: rest =>
    let r1 := rest.dropWhile pySpace
    let num := r1.takeWhile Char.isDigit
    if num.isEmpty then none
    else
      match (r1.dropWhile Char.isDigit).dropWhile pySpace with
      | '조' :: r3 =>
        let r4 := r3.dropWhile pySpace
        match parenGroup r4 with
        | some (title, r5) => some (num, some title, r5)
        | none => some (num, none, r4)
      | _ => none
  | _ => none

/-- Enumerated-glyph set of the paragraph pattern. -/
def circledDigits : Chars := "①②③④⑤⑥⑦⑧⑨⑩".toList

/-- Boolean matcher for `^([①②③④⑤⑥⑦⑧⑨⑩]|\d+\))\s*(.*)$` as used by
`_chunk_by_paragraphs` (only match success is consumed there). -/
def paraMatch (l : Chars) : Bool :=
  match l with
  | [] => false
  | c :: _ =>
    circledDigits.contains c ||
      (!(l.takeWhile Char.isDigit).isEmpty &&
        match l.dropWhile Char.isDigit with
        | ')' :: _ => true
        | _ => false)

/-! ## Section records (src/rag/structure_chunker.py lines 51-146) -/

/-- Section kinds recorded by `parse_document_structure` (paragraph/sub-item
markers never open sections there). -/
inductive SType
  | chapter
  | article
deriving DecidableEq

/-- One entry of the list built by `parse_document_structure`.  Keys missing
from the Python dict (`article_number` on chapter entries) are the empty
string, matching the `section.get(key, '')` reads downstream.  `stop` is the
dict's `"end"` key (`end` is reserved in Lean). -/
structure Section where
  type : SType
  number : Chars
  title : Chars
  chapter_number : Chars
  chapter_title : Chars
  article_number : Chars
  article_title : Chars
  start : Nat
  stop : Nat
  text : Chars
deriving DecidableEq

/-- Default section (used only with `List.getD`). -/
def dSec : Section :=
  ⟨SType.chapter, [], [], [], [], [], [], 0, 0, []⟩

/-- Line scan of `parse_document_structure` (lines 84-135): one pass over the
lines, carrying the running position and the current chapter state.  The
in-loop update of the previous article's `"end"` (source lines 118-120) is
omitted: the resolution pass (lines 137-143, `resolveSections` below)
unconditionally overwrites every article's `"end"`, so that update never
reaches the returned value. -/
def scanSections (textLen : Nat) :
    List Chars → Nat → Option Chars → Chars → List Section
  | [], _, _, _ => []
  | line :: rest, pos, curCh, curChT =>
    let ls := strip line
    let lineLen := line.length + 1
    if ls.isEmpty then scanSections textLen rest (pos + lineLen) curCh curChT
    else
      match matchChapter ls with
      | some (num, titleRaw) =>
        let title := strip titleRaw
        { type := SType.chapter, number := num, title := title,
          chapter_number := num, chapter_title := title,
          article_number := [], article_title := [],
          start := pos, stop := pos + lineLen, text := ls }
          :: scanSections textLen rest (pos + lineLen) (some num) title
      | none =>
        match matchArticle ls with
        | some (num, titleOpt, _) =>
          let atitle := match titleOpt with
            | some t => strip t
            | none => []
          { type := SType.article, number := num, title := atitle,
            chapter_number := curCh.getD [], chapter_title := curChT,
            article_number := num, article_title := atitle,
            start := pos, stop := textLen, text := [] }
            :: scanSections textLen rest (pos + lineLen) curCh curChT
        | none => scanSections textLen rest (pos + lineLen) curCh curChT

/-- Resolution step for one entry (source lines 139-143): an article's
`"end"` becomes the next entry's `"start"` (or the document length), and its
text is the stripped slice of the document; other entries are unchanged. -/
def resolveHead (t : Chars) (s : Section) (rest : List Section) : Section :=
  if s.type = SType.article then
    let e := match rest with
      | [] => t.length
      | s2 :: _ => s2.start
    { s with stop := e, text := strip (sliceText t s.start e) }
  else s

/-- Resolution pass (source lines 137-143), applying `resolveHead` at every
position. -/
def resolveSections (t : Chars) : List Section → List Section
  | [] => []
  | s :: rest => resolveHead t s rest :: resolveSections t rest

/-- Embedding of `StructureAwareChunker.parse_document_structure`. -/
def parseDocumentStructure (t : Chars) : List Section :=
  resolveSections t (scanSections t.length (splitLines t) 0 none [])

/-! ## Chunk metadata (Python dicts) -/

/-- Values stored in a chunk-metadata dict: strings or integers. -/
inductive MVal
  | str : Chars → MVal
  | int : Int → MVal
deriving DecidableEq

/-- A Python dict, as an association list where the most recent write is
nearest the head. -/
abbrev Metadata := List (Chars × MVal)

/-- Python `d[key]` lookup / `d.get(key)`: first (most recent) binding. -/
def mfind (m : Metadata) (k : Chars) : Option MVal :=
  (m.find? (fun p => decide (p.1 = k))).map (fun p => p.2)

/-- Python `d.get(key, default)` when a string is expected. -/
def mgetStr (m : Metadata) (k : Chars) (d : Chars) : Chars :=
  match mfind m k with
  | some (MVal.str s) => s
  | _ => d

/-- Python `d.get(key, default)` when an integer is expected. -/
def mgetInt (m : Metadata) (k : Chars) (d : Int) : Int :=
  match mfind m k with
  | some (MVal.int n) => n
  | _ => d

/-- A langchain `Document`: `page_content` (here `text`) plus metadata. -/
structure Doc where
  text : Chars
  metadata : Metadata
deriving DecidableEq

/-- Default document (used only with `List.getD`). -/
def dDoc : Doc := ⟨[], []⟩

/-! ## Hierarchy path and chunk creation
(src/rag/structure_chunker.py lines 288-348) -/

/-- Embedding of `StructureAwareChunker._build_hierarchy_path` (lines
320-348).  Python truthiness of `section.get(...)` is emptiness of the
stored string. -/
def buildHierarchyPath (s : Section) : Chars :=
  let parts : List Chars :=
    (if s.chapter_number.isEmpty then []
     else if s.chapter_title.isEmpty then
       ["제".toList ++ s.chapter_number ++ "장".toList]
     else
       ["제".toList ++ s.chapter_number ++ "장 ".toList ++ s.chapter_title]) ++
    (if s.article_number.isEmpty then []
     else if s.article_title.isEmpty then
       ["제".toList ++ s.article_number ++ "조".toList]
     else
       ["제".toList ++ s.article_number ++ "조 (".toList ++ s.article_title
         ++ ")".toList])
  joinSep " > ".toList parts

/-- Embedding of `StructureAwareChunker._create_chunk` (lines 288-318): copy
the caller metadata and overwrite the seven chunk keys. -/
def createChunk (text : Chars) (s : Section) (md : Metadata) (idx : Nat) :
    Doc :=
  { text := text,
    metadata :=
      ("hierarchy_path".toList, MVal.str (buildHierarchyPath s)) ::
      ("article_title".toList, MVal.str s.article_title) ::
      ("article_number".toList, MVal.str s.article_number) ::
      ("chapter_title".toList, MVal.str s.chapter_title) ::
      ("chapter_number".toList, MVal.str s.chapter_number) ::
      ("chunk_size".toList, MVal.int text.length) ::
      ("chunk_index".toList, MVal.int idx) :: md }

/-! ## Paragraph-level splitting
(src/rag/structure_chunker.py lines 234-286) -/

/-- Emission step of `_chunk_by_paragraphs` (source lines 266-269 and
276-279): the finished block `cur` becomes a chunk only when it reaches
`min_size` or no chunk exists yet (`or not chunks`); otherwise it is
dropped.  `acc` holds the chunks emitted so far in reverse. -/
def emitPara (minSize : Nat) (s : Section) (md : Metadata) (startIdx : Nat)
    (cur : List Chars) (acc : List Doc) : List Doc :=
  let pt := joinLines cur
  if minSize ≤ pt.length ∨ acc.isEmpty then
    createChunk pt s md (startIdx + acc.length) :: acc
  else acc

/-- Loop of `_chunk_by_paragraphs` (lines 259-284).  `cur` is
`current_para_lines` (raw lines).  After the last line the pending block is
flushed under the same condition as in the loop, and if still no chunk was
produced the whole article text becomes one chunk (lines 274-284). -/
def paraLoop (minSize : Nat) (articleText : Chars) (s : Section)
    (md : Metadata) (startIdx : Nat) :
    List Chars → List Chars → List Doc → List Doc
  | [], cur, acc =>
    let acc1 :=
      if cur.isEmpty then acc else emitPara minSize s md startIdx cur acc
    if acc1.isEmpty then [createChunk articleText s md startIdx]
    else acc1.reverse
  | line :: rest, cur, acc =>
    if paraMatch (strip line) ∧ ¬cur.isEmpty then
      paraLoop minSize articleText s md startIdx rest [line]
        (emitPara minSize s md startIdx cur acc)
    else paraLoop minSize articleText s md startIdx rest (cur ++ [line]) acc

/-- Embedding of `StructureAwareChunker._chunk_by_paragraphs`. -/
def chunkByParagraphs (minSize : Nat) (articleText : Chars) (s : Section)
    (md : Metadata) (startIdx : Nat) : List Doc :=
  paraLoop minSize articleText s md startIdx (splitLines articleText) [] []

/-! ## Article-level chunking loop
(src/rag/structure_chunker.py lines 148-232) -/

/-- Merge loop for an undersized article (lines 207-218): extend with
following articles while the merge is below `min_size` and adding the next
article keeps it below `max_size`.  Returns the merged text and the
remaining articles. -/
def mergeArticles (maxS minS : Nat) :
    Chars → List Section → Chars × List Section
  | merged, [] => (merged, [])
  | merged, s :: rest =>
    if merged.length < minS then
      if merged.length + s.text.length < maxS then
        mergeArticles maxS minS (merged ++ "\n\n".toList ++ s.text) rest
      else (merged, s :: rest)
    else (merged, s :: rest)

/-- Main `while i < len(article_sections)` loop (lines 185-226), with the
emitted chunks accumulated in reverse.  Each iteration consumes at least one
article, so a fuel equal to the number of articles always suffices; the
fuel-exhaustion branch is unreachable. -/
def structLoop (maxS minS : Nat) (md : Metadata) :
    Nat → List Section → List Doc → List Doc
  | _, [], acc => acc.reverse
  | 0, _ :: _, acc => acc.reverse
  | fuel + 1, s :: rest, acc =>
    let n := s.text.length
    if minS ≤ n ∧ n < maxS then
      structLoop maxS minS md fuel rest
        (createChunk s.text s md acc.length :: acc)
    else if maxS ≤ n then
      structLoop maxS minS md fuel rest
        ((chunkByParagraphs minS s.text s md acc.length).reverse ++ acc)
    else
      let mr := mergeArticles maxS minS s.text rest
      structLoop maxS minS md fuel mr.2
        (createChunk mr.1 s md acc.length :: acc)

/-! ## Overlap stitching (src/rag/structure_chunker.py lines 350-387) -/

/-- Overlap text taken from the previous chunk:
`prev[-overlap:] if len(prev) > overlap else prev`. -/
def ovText (ov : Nat) (prev : Chars) : Chars :=
  if ov < prev.length then prev.drop (prev.length - ov) else prev

/-- Tail of `_add_overlap`'s loop: every chunk after the first is prefixed
with the previous chunk's pre-overlap tail and a blank line. -/
def overlapRest (ov : Nat) : Doc → List Doc → List Doc
  | _, [] => []
  | prev, c :: rest =>
    { c with text := ovText ov prev.text ++ "\n\n".toList ++ c.text }
      :: overlapRest ov c rest

/-- Embedding of `StructureAwareChunker._add_overlap`. -/
def addOverlap (ov : Nat) (chunks : List Doc) : List Doc :=
  if chunks.length ≤ 1 ∨ ov = 0 then chunks
  else
    match chunks with
    | [] => []
    | c :: rest => c :: overlapRest ov c rest

/-! ## Generic fallback chunking
(src/rag/structure_chunker.py lines 389-425)

The `RecursiveCharacterTextSplitter` is an external langchain collaborator;
it enters as the `splitter` parameter.  `create_documents` copies the caller
metadata onto every piece, and the loop then writes the chunk keys, ending
with `chunking_strategy = 'general'`. -/

/-- Embedding of `StructureAwareChunker._fallback_to_general_chunking`,
parameterised by the external text splitter. -/
def fallbackToGeneralChunking (splitter : Chars → List Chars) (t : Chars)
    (md : Metadata) : List Doc :=
  (splitter t).enum.map (fun p =>
    { text := p.2,
      metadata :=
        ("chunking_strategy".toList, MVal.str "general".toList) ::
        ("hierarchy_path".toList, MVal.str []) ::
        ("article_title".toList, MVal.str []) ::
        ("article_number".toList, MVal.str []) ::
        ("chapter_title".toList, MVal.str []) ::
        ("chapter_number".toList, MVal.str []) ::
        ("chunk_size".toList, MVal.int p.2.length) ::
        ("chunk_index".toList, MVal.int p.1) :: md })

/-- Embedding of `StructureAwareChunker.chunk_by_structure` (lines 148-232):
parse, fall back to generic splitting when no article was recognised,
otherwise run the article loop and stitch overlap. -/
def chunkByStructure (splitter : Chars → List Chars) (maxS minS ov : Nat)
    (t : Chars) (md : Metadata) : List Doc :=
  let sections := parseDocumentStructure t
  let articles := sections.filter (fun s => decide (s.type = SType.article))
  if articles.isEmpty then fallbackToGeneralChunking splitter t md
  else addOverlap ov (structLoop maxS minS md articles.length articles [])

/-! ## Retroactive structure lookup
(src/rag/chunker.py lines 39-108, `DocumentChunker._find_structure_context`) -/

/-- Unanchored `re.search` of the chapter pattern
`제\s*(\d+)\s*장\s+(.+)`: leftmost position where the pattern matches. -/
def searchChapter : Chars → Option (Chars × Chars)
  | [] => none
  | c :: rest =>
    match matchChapter (c :: rest) with
    | some r => some r
    | none => searchChapter rest

/-- Unanchored `re.search` of the article pattern
`제\s*(\d+)\s*조\s*(?:\((.+?)\))?`. -/
def searchArticle : Chars → Option (Chars × Option Chars)
  | [] => none
  | c :: rest =>
    match matchArticle (c :: rest) with
    | some (num, title, _) => some (num, title)
    | none => searchArticle rest

/-- Result dict of `_find_structure_context`. -/
structure StructCtx where
  chapter_number : Chars
  chapter_title : Chars
  article_number : Chars
  article_title : Chars
  hierarchy_path : Chars
deriving DecidableEq

/-- Hierarchy-path construction of `_find_structure_context` (lines 88-107),
from the backward-scan state.  Python truthiness of `current_chapter` /
`current_article` (`None` or empty is falsy) is spelled out. -/
def backwardHierarchyPath (ch : Option Chars) (chT : Chars)
    (ar : Option Chars) (arT : Chars) : Chars :=
  let parts : List Chars :=
    (match ch with
     | none => []
     | some c =>
       if c.isEmpty then []
       else if chT.isEmpty then ["제".toList ++ c ++ "장".toList]
       else ["제".toList ++ c ++ "장 ".toList ++ chT]) ++
    (match ar with
     | none => []
     | some a =>
       if a.isEmpty then []
       else if arT.isEmpty then ["제".toList ++ a ++ "조".toList]
       else ["제".toList ++ a ++ "조 (".toList ++ arT ++ ")".toList])
  joinSep " > ".toList parts

/-- Backward scan over the reversed lines before the chunk (lines 67-86):
the nearest preceding article and chapter matches win; the `break` once both
are found changes nothing because later finds are guarded by `is None`.
The state is (chapter, chapter title, article, article title). -/
def backScan :
    List Chars → Option Chars × Chars × Option Chars × Chars →
      Option Chars × Chars × Option Chars × Chars
  | [], st => st
  | line :: rest, (ch, chT, ar, arT) =>
    let ls := strip line
    let st1 :=
      if ar.isNone then
        match searchArticle ls with
        | some (num, title) => (num, title.getD [])
        | none => (ar, arT)
      else (ar, arT)
    let st2 :=
      if ch.isNone then
        match searchChapter ls with
        | some (num, title) => (some num, strip title)
        | none => (ch, chT)
      else (ch, chT)
    backScan rest (st2.1, st2.2, st1.1, st1.2)

/-- Embedding of `DocumentChunker._find_structure_context` (the retroactive
backward-scan path; `chunk_end` is unused by the source body). -/
def findStructureContext (t : Chars) (chunkStart : Nat) : StructCtx :=
  let textBefore := t.take chunkStart
  let st := backScan (splitLines textBefore).reverse (none, [], none, [])
  { chapter_number := st.1.getD [],
    chapter_title := st.2.1,
    article_number := st.2.2.1.getD [],
    article_title := st.2.2.2,
    hierarchy_path := backwardHierarchyPath st.1 st.2.1 st.2.2.1 st.2.2.2 }

/-! ## Reranker (src/rag/reranker.py lines 44-98)

The cross-encoder `self.model.predict` is the external relevance model; it
enters as a per-pair scoring function.  Python's stable `list.sort` with
`reverse=True` is embedded as a stable insertion sort with the
higher-score-first relation. -/

/-- Descending-by-score order on `(Document, score)` pairs. -/
def scoreGE (a b : Doc × Int) : Prop := b.2 ≤ a.2

instance : DecidableRel scoreGE := fun a b => Int.decLe b.2 a.2

/-- Embedding of `DocumentReranker.rerank`.  `topK = none` is Python
`top_k=None`; `if top_k:` is falsy for both `None` and `0`. -/
def rerank (scoreFn : Chars → Chars → Int) (query : Chars)
    (documents : List (Doc × Int)) (topK : Option Nat) : List (Doc × Int) :=
  if documents.isEmpty then []
  else
    let pairs := documents.map (fun di => (query, di.1.text))
    let scores := pairs.map (fun p => scoreFn p.1 p.2)
    let reranked :=
      List.zipWith (fun (di : Doc × Int) sc => (di.1, sc)) documents scores
    let sorted := reranked.insertionSort scoreGE
    match topK with
    | some k => if k ≠ 0 then sorted.take k else sorted
    | none => sorted

/-! ## Vector store (src/rag/vector_store.py lines 90-146)

The Chroma collection is an external collaborator whose state is the list of
indexed documents and whose distances are induced by the query embedding. -/

/-- Metadata filter grammar: single-field equality and binary `AND`. -/
inductive MFilter
  | eq : Chars → Chars → MFilter
  | and : MFilter → MFilter → MFilter

/-- Filter satisfaction over chunk metadata. -/
def matchesFilter (m : Metadata) : MFilter → Bool
  | MFilter.eq k v => decide (mfind m k = some (MVal.str v))
  | MFilter.and f g => matchesFilter m f && matchesFilter m g

/-- Predicate applied by an optional `where` filter. -/
def wherePred (w : Option MFilter) (m : Metadata) : Bool :=
  match w with
  | some f => matchesFilter m f
  | none => true

/-- Ascending-by-distance order on `(Document, distance)` pairs. -/
def distLE (a b : Doc × Int) : Prop := a.2 ≤ b.2

instance : DecidableRel distLE := fun a b => Int.decLe a.2 b.2

/-- Modelled from the spec: the vector-index collaborator's
`query(vector, top_k, filter?)` (spec §6), whose storage-engine internals
(Chroma) are outside the repository.  It returns, ascending by distance, at
most `n` of the indexed entries whose metadata satisfies the filter;
filtering happens before the top-k cut (spec §4.4). -/
def colQuery (entries : List Doc) (dist : Doc → Int) (n : Nat)
    (w : Option MFilter) : List (Doc × Int) :=
  (((entries.filter (fun d => wherePred w d.metadata)).map
      (fun d => (d, dist d))).insertionSort distLE).take n

/-- Embedding of `VectorStore.search` on top of `colQuery`: empty collection
short-circuits to `[]`, empty query result short-circuits to `[]`, and the
optional threshold drops results with `distance > threshold`. -/
def vsSearch (entries : List Doc) (dist : Doc → Int) (topK : Nat)
    (threshold : Option Int) (w : Option MFilter) : List (Doc × Int) :=
  if entries.length = 0 then []
  else
    let results := colQuery entries dist topK w
    if results.isEmpty then []
    else
      results.filter (fun r =>
        match threshold with
        | none => true
        | some th => decide (r.2 ≤ th))

/-! ## LLM generation and query orchestration
(src/rag/llm.py lines 41-91 and 188-256, src/rag/pipeline.py lines 198-275)

The OpenAI completion call is the external generation collaborator; it
enters as `genCall : system prompt → user prompt → Except error answer`,
where `Except.error` is the Python exception carrying `str(e)`. -/

/-- Constant `config.SYSTEM_PROMPT` (src/config.py lines 58-80). -/
def systemPrompt : Chars :=
  ("당신은 한글(HWP/HWPX) 문서 기반 질의응답 시스템의 도메인 어시스턴트이며, \n목표는는 OWPML 필터로 추출된 문서(텍스트/표/구조)를 근거로, 정확하고 간결한 한국어 답변을 생성한다.\n\n\n역할:\n- 제공된 문서를 정확히 읽고 질문에 답변\n- 문서에 없는 내용은 \"문서에서 찾을 수 없습니다\"라고 명확히 표시\n- 표의 내용은 정확히 인용\n\n답변 형식:\n1. 핵심 답변 (2-3문장)\n2. 근거 (문서에서 직접 인용, \"\" 사용)\n3. 출처 (문서명 및 해당 섹션)\n\n규칙:\n1) 출처 우선: 제공된 컨텍스트(검색된 문서) 밖의 사실은 단정하지 않는다. 불확실하면 \"자료에 없음\"을 명시.\n2) 표 인용: 표/조문/조항을 언급할 때는 항목명·행/열 키를 같이 적어 사용자가 재확인할 수 있게 한다.\n3) 요약 우선: 질문 의도를 먼저 요약하고, 핵심 답 → 근거(문서명/섹션/표요약) → 필요한 경우 추가 설명 순서로 작성.\n4) 안전: 법률/의료/보안 등 고위험 판단은 안내/참고 수준으로 두고, 원문 확인을 권고한다.\n5) 톤: 한국어, 반말/존댓말 섞지 말고 일관된 존댓말. 과장·단정 금지. 불필요한 수사 금지.\n6) 출력형식 : \"요약\", \"근거\", \"세부\" 3단 구성 (질문이 아주 단순하면 요약+근거만)\n\n").toList

/-- Instantiation of `config.USER_PROMPT_TEMPLATE.format(context, question)`
(src/config.py lines 82-94). -/
def userPrompt (context question : Chars) : Chars :=
  "다음 문서를 참고하여 질문에 답해주세요.\n\n[문서 내용]\n".toList ++ context ++
  "\n\n[질문]\n".toList ++ question ++
  "\n\n[지시사항]\n- 문서에 명시된 내용만 사용\n- 표가 있다면 정확히 인용\n- 출처 문서명 반드시 명시\n".toList

/-- Error-answer prefix of `LLMGenerator.generate`'s `except` branch
(src/rag/llm.py line 91). -/
def genErrorMsg : Chars := "답변 생성 중 오류가 발생했습니다: ".toList

/-- Embedding of `LLMGenerator.generate`: any exception of the external call
is caught and converted into an error-answer string carrying `str(e)`. -/
def llmGenerate (genCall : Chars → Chars → Except Chars Chars)
    (context question : Chars) : Chars :=
  match genCall systemPrompt (userPrompt context question) with
  | Except.ok answer => answer
  | Except.error e => genErrorMsg ++ e

/-- One element of the `contexts` list built by `RAGPipeline.query`. -/
structure CtxItem where
  content : Chars
  metadata : Metadata
  score : Int
deriving DecidableEq

/-- One `source_info` dict of `LLMGenerator.generate_with_sources`. -/
structure SourceInfo where
  index : Nat
  doc_name : Chars
  doc_id : Chars
  chunk_id : Int
  chunk_index : Int
  score : Int
  content_preview : Chars
  chapter_number : Chars
  chapter_title : Chars
  article_number : Chars
  article_title : Chars
  hierarchy_path : Chars
  user_id : Chars
  dept_id : Chars
  project_id : Chars
deriving DecidableEq

/-- Result dict of `generate_with_sources`. -/
structure GenResult where
  answer : Chars
  sources : List SourceInfo
  context_used : Chars
deriving DecidableEq

/-- Header-plus-content block for one context entry (llm.py lines 209-220). -/
def ctxBlock (i : Nat) (c : CtxItem) : Chars :=
  let docName := mgetStr c.metadata "doc_name".toList "알 수 없음".toList
  let hp := mgetStr c.metadata "hierarchy_path".toList []
  let header :=
    "[문서 ".toList ++ (Nat.repr (i + 1)).toList ++ ": ".toList ++ docName
      ++ "]".toList ++
    (if hp.isEmpty then [] else "\n[위치: ".toList ++ hp ++ "]".toList)
  header ++ '\n' :: c.content

/-- `source_info` for one context entry (llm.py lines 229-250). -/
def sourceInfo (i : Nat) (c : CtxItem) : SourceInfo :=
  { index := i + 1,
    doc_name := mgetStr c.metadata "doc_name".toList "알 수 없음".toList,
    doc_id := mgetStr c.metadata "doc_id".toList [],
    chunk_id := mgetInt c.metadata "chunk_id".toList (-1),
    chunk_index := mgetInt c.metadata "chunk_index".toList (-1),
    score := c.score,
    content_preview := c.content.take 200 ++ "...".toList,
    chapter_number := mgetStr c.metadata "chapter_number".toList [],
    chapter_title := mgetStr c.metadata "chapter_title".toList [],
    article_number := mgetStr c.metadata "article_number".toList [],
    article_title := mgetStr c.metadata "article_title".toList [],
    hierarchy_path := mgetStr c.metadata "hierarchy_path".toList [],
    user_id := mgetStr c.metadata "user_id".toList [],
    dept_id := mgetStr c.metadata "dept_id".toList [],
    project_id := mgetStr c.metadata "project_id".toList [] }

/-- Embedding of `LLMGenerator.generate_with_sources`. -/
def generateWithSources (genCall : Chars → Chars → Except Chars Chars)
    (contexts : List CtxItem) (question : Chars) : GenResult :=
  let contextStr := joinSep "\n\n".toList (contexts.enum.map
    (fun p => ctxBlock p.1 p.2))
  { answer := llmGenerate genCall contextStr question,
    sources := contexts.enum.map (fun p => sourceInfo p.1 p.2),
    context_used := contextStr }

/-- Constant `config.RERANK_TOP_K` (src/config.py line 53). -/
def RERANK_TOP_K : Nat := 10

/-- Constant `config.FINAL_TOP_K` (src/config.py line 55). -/
def FINAL_TOP_K : Nat := 3

/-- Answer returned by `RAGPipeline.query` when retrieval is empty
(src/rag/pipeline.py line 236). -/
def noDocsAnswer : Chars :=
  "관련 문서를 찾을 수 없습니다. 다른 질문을 시도해보세요.".toList

/-- Response dict of `RAGPipeline.query`.  The wall-clock
`processing_time` field is not modelled.  `sources` is `some` exactly when
the returned dict carries the key (the empty-retrieval early return always
carries it). -/
structure QueryResponse where
  answer : Chars
  question : Chars
  sources : Option (List SourceInfo)
deriving DecidableEq

/-- Embedding of `RAGPipeline.query` (pipeline.py lines 198-275).  The query
embedding enters only through the induced distance function `dist`; the
optional reranker is its external scoring function. -/
def pipelineQuery (entries : List Doc) (dist : Doc → Int)
    (reranker : Option (Chars → Chars → Int))
    (genCall : Chars → Chars → Except Chars Chars)
    (question : Chars) (topK : Nat) (returnSources : Bool) : QueryResponse :=
  let initialTopK := match reranker with
    | some _ => RERANK_TOP_K
    | none => topK
  let searchResults := vsSearch entries dist initialTopK none none
  if searchResults.isEmpty then
    { answer := noDocsAnswer, question := question, sources := some [] }
  else
    let searchResults2 := match reranker with
      | some sf => rerank sf question searchResults (some FINAL_TOP_K)
      | none => searchResults
    let contexts := searchResults2.map (fun ds =>
      { content := ds.1.text, metadata := ds.1.metadata, score := ds.2 })
    let result := generateWithSources genCall contexts question
    { answer := result.answer, question := question,
      sources := if returnSources then some result.sources else none }

/-! ## Concrete inputs used by the theorems below -/

/-- Trivial external splitter used where the fallback path needs one. -/
def sp0 : Chars → List Chars := fun t => [t]

/-- Concrete distance function for witnesses. -/
def dist0 : Doc → Int := fun d => d.text.length

/-- Concrete scoring function for witnesses. -/
def sf0 : Chars → Chars → Int := fun _ t => t.length

/-- Generation call that always raises. -/
def gcErr : Chars → Chars → Except Chars Chars :=
  fun _ _ => Except.error "서버 오류".toList

/-- Scenario input of spec §8: one chapter and two short articles. -/
def cx1Text : Chars :=
  "제1장 총칙\n\n제1조 (목적) 이 규정은...\n\n제2조 (적용범위) ① ...\n②...".toList

/-- Sample article section for paragraph-splitting statements. -/
def s0 : Section :=
  ⟨SType.article, "1".toList, "목적".toList, "1".toList, "총칙".toList,
    "1".toList, "목적".toList, 0, 0, []⟩

/-- Article text whose second and third paragraphs are below `min_size`. -/
def cx2Text : Chars := "가나다라마바사아자차\n① 꽝\n① 똠".toList

/-- Article text with no paragraph markers. -/
def cw2Text : Chars := "가나\n다라".toList

/-- Two chunks for the overlap witness. -/
def cw3Chunks : List Doc := [⟨"abcd".toList, []⟩, ⟨"xyz".toList, []⟩]

/-- Document where a chapter heading separates two articles. -/
def cx4Text : Chars := "제1조 가\n제2장 나\n제2조 다".toList

/-- Ten retrieval candidates for the reranking witness. -/
def cw5Docs : List (Doc × Int) :=
  (List.range 10).map (fun i => (⟨List.replicate i 'a', []⟩, (i : Int)))

/-- Unstructured text for the fallback witness. -/
def cw6Text : Chars := "안녕하세요".toList

/-- One indexed document for the retrieval witness. -/
def cw7d : Doc := ⟨"x".toList, [("category".toList, MVal.str "인사".toList)]⟩

/-- Question and context used by the generation-failure witness. -/
def cwQuestion : Chars := "질문".toList

/-- Context string used by the generation-failure witness. -/
def cwContext : Chars := "문맥".toList

/-- Document with a chunk that starts exactly at its article heading. -/
def cx9Text : Chars :=
  "제1장 총칙\n제1조 (목적) 가나다라\n제2조 (범위) 마바사아".toList

instance : IsTotal (Doc × Int) scoreGE :=
  ⟨fun a b => le_total b.2 a.2⟩

instance : IsTrans (Doc × Int) scoreGE :=
  ⟨fun _ _ _ h1 h2 => le_trans h2 h1⟩

instance : IsTotal (Doc × Int) distLE :=
  ⟨fun a b => le_total a.2 b.2⟩

instance : IsTrans (Doc × Int) distLE :=
  ⟨fun _ _ _ h1 h2 => le_trans h1 h2⟩

/-! ## Helper lemmas -/

theorem splitLines_ne_nil (t : Chars) : splitLines t ≠ [] := by
  cases t with
  | nil => simp [splitLines]
  | cons c rest =>
    simp only [splitLines]
    split
    · simp
    · split <;> simp

theorem joinLines_splitLines (t : Chars) : joinLines (splitLines t) = t := by
  induction t with
  | nil => rfl
  | cons c rest ih =>
    by_cases hc : c = '\n'
    · subst hc
      have e1 : splitLines ('\n' :: rest) = [] :: splitLines rest := rfl
      rw [e1]
      cases h : splitLines rest with
      | nil => exact absurd h (splitLines_ne_nil rest)
      | cons l ls =>
        have hstep : joinLines ([] :: l :: ls) = '\n' :: joinLines (l :: ls) := rfl
        rw [hstep, ← h, ih]
    · simp only [splitLines, if_neg hc]
      cases h : splitLines rest with
      | nil => exact absurd h (splitLines_ne_nil rest)
      | cons l ls =>
        show joinLines ((c :: l) :: ls) = c :: rest
        cases ls with
        | nil =>
          have hl : joinLines (l :: []) = rest := by rw [← h]; exact ih
          have hlr : l = rest := hl
          simp [joinLines, hlr]
        | cons l2 ls2 =>
          have h2 : joinLines (l :: l2 :: ls2) = rest := by rw [← h]; exact ih
          exact congrArg (fun x => c :: x) h2

theorem tail_rev {α : Type} (l : List α) : l.reverse.tail = l.dropLast.reverse := by
  induction l with
  | nil => rfl
  | cons a l ih =>
    cases l with
    | nil => rfl
    | cons b m =>
      rw [List.reverse_cons, List.dropLast_cons₂]
      nth_rewrite 2 [List.reverse_cons]
      rw [← ih]
      cases h : (b :: m).reverse with
      | nil => simp at h
      | cons x xs => simp [h]

theorem drop_one_rev {α : Type} (l : List α) :
    l.reverse.drop 1 = l.dropLast.reverse := by
  rw [List.drop_one, tail_rev]

theorem mfind_cons_self (k : Chars) (v : MVal) (m : Metadata) :
    mfind ((k, v) :: m) k = some v := by
  simp [mfind]

theorem mfind_cons_ne {k k' : Chars} (h : k' ≠ k) (v : MVal) (m : Metadata) :
    mfind ((k', v) :: m) k = mfind m k := by
  simp [mfind, List.find?, h]

/-! ## Claim C1 -/

/-- C1 fails on the code: on the scenario input of spec §8 with
`max_size = 500` and `min_size = 50`, `chunk_by_structure` does not return
two chunks — both articles are shorter than `min_size`, so the merge branch
combines them into a single chunk. -/
theorem chunk_scenario_not_two_chunks :
    (chunkByStructure sp0 500 50 150 cx1Text []).length ≠ 2 := by
  decide

/-- C1 (amended): on the scenario input with `max_size = 500` and
`min_size = 50`, `chunk_by_structure` returns exactly one chunk, whose
`chapter_number` is `"1"`, whose `article_number` is `"1"` (the first merged
article's identifiers), and whose `hierarchy_path` starts with the Korean
chapter label `"제1장"` (not the English `"Chapter 1"`). -/
theorem chunk_scenario_single_merged_chunk :
    (chunkByStructure sp0 500 50 150 cx1Text []).length = 1 ∧
    mfind ((chunkByStructure sp0 500 50 150 cx1Text []).getD 0 dDoc).metadata
      "chapter_number".toList = some (MVal.str "1".toList) ∧
    mfind ((chunkByStructure sp0 500 50 150 cx1Text []).getD 0 dDoc).metadata
      "article_number".toList = some (MVal.str "1".toList) ∧
    (mgetStr ((chunkByStructure sp0 500 50 150 cx1Text []).getD 0 dDoc).metadata
      "hierarchy_path".toList []).take 3 = "제1장".toList := by
  decide

/-! ## Claim C2 -/

theorem emitPara_dropLast_large (minSize : Nat) (s : Section) (md : Metadata)
    (idx : Nat) (cur : List Chars) (acc : List Doc)
    (h : ∀ c ∈ acc.dropLast, minSize ≤ c.text.length) :
    ∀ c ∈ (emitPara minSize s md idx cur acc).dropLast,
      minSize ≤ c.text.length := by
  rw [emitPara]
  split
  case isTrue hcond =>
    cases acc with
    | nil => simp
    | cons b bs =>
      have hpt : minSize ≤ (joinLines cur).length := by
        rcases hcond with h1 | h2
        · exact h1
        · simp at h2
      intro c hc
      rw [List.dropLast_cons₂] at hc
      rcases List.mem_cons.mp hc with rfl | hc
      · exact hpt
      · exact h c hc
  case isFalse => exact h

theorem paraLoop_drop_one (minSize : Nat) (atext : Chars) (s : Section)
    (md : Metadata) (idx : Nat) :
    ∀ (lines cur : List Chars) (acc : List Doc),
      (∀ c ∈ acc.dropLast, minSize ≤ c.text.length) →
      ∀ c ∈ (paraLoop minSize atext s md idx lines cur acc).drop 1,
        minSize ≤ c.text.length := by
  intro lines
  induction lines with
  | nil =>
    intro cur acc hacc c hc
    rw [paraLoop] at hc
    have hacc1 : ∀ c ∈ (if cur.isEmpty then acc
        else emitPara minSize s md idx cur acc).dropLast,
        minSize ≤ c.text.length := by
      split
      · exact hacc
      · exact emitPara_dropLast_large minSize s md idx cur acc hacc
    set acc1 := if cur.isEmpty then acc
      else emitPara minSize s md idx cur acc with hdef
    split at hc
    · simp at hc
    · rw [drop_one_rev, List.mem_reverse] at hc
      exact hacc1 c hc
  | cons line rest ih =>
    intro cur acc hacc c hc
    rw [paraLoop] at hc
    split at hc
    · exact ih [line] (emitPara minSize s md idx cur acc)
        (emitPara_dropLast_large minSize s md idx cur acc hacc) c hc
    · exact ih (cur ++ [line]) acc hacc c hc

theorem paraLoop_no_marker (minSize : Nat) (atext : Chars) (s : Section)
    (md : Metadata) (idx : Nat) :
    ∀ (lines cur : List Chars) (acc : List Doc),
      (∀ l ∈ lines, paraMatch (strip l) = false) →
      paraLoop minSize atext s md idx lines cur acc =
        paraLoop minSize atext s md idx [] (cur ++ lines) acc := by
  intro lines
  induction lines with
  | nil => intro cur acc _; rw [List.append_nil]
  | cons line rest ih =>
    intro cur acc h
    have h0 : paraMatch (strip line) = false := h line (List.mem_cons_self _ _)
    have step : paraLoop minSize atext s md idx (line :: rest) cur acc =
        paraLoop minSize atext s md idx rest (cur ++ [line]) acc := by
      rw [paraLoop, if_neg (by simp [h0])]
    rw [step, ih (cur ++ [line]) acc
      (fun l hl => h l (List.mem_cons_of_mem _ hl))]
    simp

/-- C2 (amended): when an oversized article is sub-split at paragraph
markers, every emitted chunk except the first has length at least
`min_size`; an undersized later paragraph is dropped outright — its text
appears in no chunk (no forward accumulation takes place; see the
counterexample) — and if the section contains no paragraph markers at all
the whole section is emitted as a single chunk. -/
theorem paragraph_split_minsize_and_no_marker (minSize : Nat) (s : Section)
    (md : Metadata) (idx : Nat) (atext : Chars) :
    (∀ c ∈ (chunkByParagraphs minSize atext s md idx).drop 1,
        minSize ≤ c.text.length)
    ∧ ((∀ l ∈ splitLines atext, paraMatch (strip l) = false) →
        chunkByParagraphs minSize atext s md idx =
          [createChunk atext s md idx]) := by
  constructor
  · exact paraLoop_drop_one minSize atext s md idx (splitLines atext) [] []
      (by simp)
  · intro h
    rw [chunkByParagraphs,
      paraLoop_no_marker minSize atext s md idx (splitLines atext) [] [] h,
      List.nil_append, paraLoop]
    have hne : ¬(splitLines atext).isEmpty := by
      simpa [List.isEmpty_iff] using splitLines_ne_nil atext
    rw [if_neg hne, emitPara]
    have hcond : minSize ≤ (joinLines (splitLines atext)).length ∨
        (List.isEmpty ([] : List Doc)) = true := Or.inr rfl
    rw [if_pos hcond]
    simp [joinLines_splitLines]

/-- C2 fails on the code as stated: in `cx2Text` the second paragraph
`"① 꽝"` is shorter than `min_size = 10`, and instead of being retained as
the leading fragment of the next paragraph's chunk it is discarded — its
text (witnessed by the character `'꽝'`, which occurs in the input) appears
in no output chunk. -/
theorem paragraph_split_drops_undersized :
    (chunkByParagraphs 10 cx2Text s0 [] 0).map Doc.text =
      ["가나다라마바사아자차".toList] ∧
    cx2Text.contains '꽝' = true ∧
    ("가나다라마바사아자차".toList).contains '꽝' = false := by
  decide

/-- Witness for C2: a section without paragraph markers is emitted whole as
a single chunk, and the suffix invariant holds trivially. -/
theorem paragraph_split_no_marker_witness :
    chunkByParagraphs 5 cw2Text s0 [] 0 = [createChunk cw2Text s0 [] 0] :=
  (paragraph_split_minsize_and_no_marker 5 s0 [] 0 cw2Text).2 (by decide)

/-! ## Claim C3 -/

theorem overlapRest_getD (ov : Nat) :
    ∀ (rest : List Doc) (prev : Doc) (i : Nat), i < rest.length →
      (overlapRest ov prev rest).getD i dDoc =
        { rest.getD i dDoc with
          text := ovText ov ((prev :: rest).getD i dDoc).text
            ++ "\n\n".toList ++ (rest.getD i dDoc).text } := by
  intro rest
  induction rest with
  | nil => intro prev i h; simp at h
  | cons c cs ih =>
    intro prev i h
    cases i with
    | zero => rfl
    | succ n =>
      have hn : n < cs.length := by simpa using h
      show (overlapRest ov c cs).getD n dDoc = _
      rw [ih c n hn]
      rfl

/-- C3 (confirmed): in the output of `_add_overlap` with a positive
`overlap_size`, whenever chunk `i`'s pre-overlap text is at least
`overlap_size` long, the first `overlap_size` characters of the following
output chunk equal the last `overlap_size` characters of chunk `i`'s
pre-overlap text; the prepended overlap is always computed from the
neighbour's pre-overlap text (the input list), so overlap never compounds
along a chain of chunks. -/
theorem overlap_prefix_matches_prev_tail (ov : Nat) (chunks : List Doc)
    (i : Nat) (hov : 0 < ov) (hi : i + 1 < chunks.length)
    (hlen : ov ≤ ((chunks.getD i dDoc).text).length) :
    ((addOverlap ov chunks).getD (i + 1) dDoc).text.take ov =
      (chunks.getD i dDoc).text.drop
        ((chunks.getD i dDoc).text.length - ov) := by
  have h2 : ¬(chunks.length ≤ 1 ∨ ov = 0) := by
    push_neg
    constructor
    · omega
    · omega
  unfold addOverlap
  rw [if_neg h2]
  cases chunks with
  | nil => simp at hi
  | cons c rest =>
    have hi' : i < rest.length := by simpa using hi
    show ((overlapRest ov c rest).getD i dDoc).text.take ov = _
    rw [overlapRest_getD ov rest c i hi']
    have hP : (c :: rest).getD i dDoc = ((c :: rest) : List Doc).getD i dDoc :=
      rfl
    have hovt : ovText ov ((c :: rest).getD i dDoc).text =
        ((c :: rest).getD i dDoc).text.drop
          (((c :: rest).getD i dDoc).text.length - ov) := by
      rw [ovText]
      split
      · rfl
      · have h0 : ((c :: rest).getD i dDoc).text.length - ov = 0 := by omega
        rw [h0, List.drop_zero]
    have hlenov : (ovText ov ((c :: rest).getD i dDoc).text).length = ov := by
      rw [hovt, List.length_drop]
      omega
    show (ovText ov ((c :: rest).getD i dDoc).text ++ "\n\n".toList
      ++ (rest.getD i dDoc).text).take ov = _
    rw [List.append_assoc, List.take_left' hlenov, hovt]

/-- Witness for C3: two concrete chunks with `overlap_size = 2`; the second
output chunk starts with the last two characters of the first chunk's
pre-overlap text. -/
theorem overlap_prefix_witness :
    ((addOverlap 2 cw3Chunks).getD 1 dDoc).text.take 2 = "cd".toList := by
  have h := overlap_prefix_matches_prev_tail 2 cw3Chunks 0 (by decide)
    (by decide) (by decide)
  exact h.trans (by decide)

/-! ## Claim C4 -/

theorem scan_start_le (textLen : Nat) :
    ∀ (lines : List Chars) (pos : Nat) (curCh : Option Chars) (curChT : Chars),
      ∀ s ∈ scanSections textLen lines pos curCh curChT, pos ≤ s.start := by
  intro lines
  induction lines with
  | nil => intro pos _ _ s hs; simp [scanSections] at hs
  | cons line rest ih =>
    intro pos curCh curChT s hs
    rw [scanSections] at hs
    split at hs
    · exact le_trans (by omega) (ih _ _ _ s hs)
    · split at hs
      · rcases List.mem_cons.mp hs with rfl | hs
        · exact le_refl _
        · exact le_trans (by omega) (ih _ _ _ s hs)
      · split at hs
        · rcases List.mem_cons.mp hs with rfl | hs
          · exact le_refl _
          · exact le_trans (by omega) (ih _ _ _ s hs)
        · exact le_trans (by omega) (ih _ _ _ s hs)

theorem scan_pairwise (textLen : Nat) :
    ∀ (lines : List Chars) (pos : Nat) (curCh : Option Chars) (curChT : Chars),
      List.Pairwise (fun a b => a.start < b.start)
        (scanSections textLen lines pos curCh curChT) := by
  intro lines
  induction lines with
  | nil => intro pos _ _; simp [scanSections]
  | cons line rest ih =>
    intro pos curCh curChT
    rw [scanSections]
    split
    · exact ih _ _ _
    · split
      · refine List.Pairwise.cons ?_ (ih _ _ _)
        intro b hb
        have := scan_start_le textLen rest (pos + (line.length + 1)) _ _ b hb
        simpa using lt_of_lt_of_le (by omega) this
      · split
        · refine List.Pairwise.cons ?_ (ih _ _ _)
          intro b hb
          have := scan_start_le textLen rest (pos + (line.length + 1)) _ _ b hb
          simpa using lt_of_lt_of_le (by omega) this
        · exact ih _ _ _

theorem resolveHead_start (t : Chars) (s : Section) (rest : List Section) :
    (resolveHead t s rest).start = s.start := by
  unfold resolveHead
  split <;> rfl

theorem resolveHead_type (t : Chars) (s : Section) (rest : List Section) :
    (resolveHead t s rest).type = s.type := by
  unfold resolveHead
  split <;> rfl

theorem resolve_length (t : Chars) (l : List Section) :
    (resolveSections t l).length = l.length := by
  induction l with
  | nil => rfl
  | cons s rest ih => simp [resolveSections, ih]

theorem resolve_map_start (t : Chars) (l : List Section) :
    (resolveSections t l).map (fun s => s.start) =
      l.map (fun s => s.start) := by
  induction l with
  | nil => rfl
  | cons s rest ih =>
    show (resolveHead t s rest :: resolveSections t rest).map _ = _
    simp [resolveHead_start, ih]

theorem resolve_getD_start (t : Chars) :
    ∀ (l : List Section) (i : Nat),
      ((resolveSections t l).getD i dSec).start = (l.getD i dSec).start := by
  intro l
  induction l with
  | nil => intro i; rfl
  | cons s rest ih =>
    intro i
    cases i with
    | zero => exact resolveHead_start t s rest
    | succ n => exact ih n

theorem resolve_getD_type (t : Chars) :
    ∀ (l : List Section) (i : Nat),
      ((resolveSections t l).getD i dSec).type = (l.getD i dSec).type := by
  intro l
  induction l with
  | nil => intro i; rfl
  | cons s rest ih =>
    intro i
    cases i with
    | zero => exact resolveHead_type t s rest
    | succ n => exact ih n

theorem resolve_stop (t : Chars) :
    ∀ (l : List Section) (i : Nat), i < l.length →
      (l.getD i dSec).type = SType.article →
      ((resolveSections t l).getD i dSec).stop =
        (if i + 1 < l.length then (l.getD (i + 1) dSec).start
         else t.length) := by
  intro l
  induction l with
  | nil => intro i h; simp at h
  | cons s rest ih =>
    intro i hi htype
    cases i with
    | zero =>
      have hty : s.type = SType.article := htype
      show (resolveHead t s rest).stop = _
      unfold resolveHead
      rw [if_pos hty]
      cases rest with
      | nil => simp
      | cons s2 rs => simp
    | succ n =>
      have hn : n < rest.length := by simpa using hi
      have hty : (rest.getD n dSec).type = SType.article := htype
      have hrec := ih n hn hty
      show ((resolveSections t rest).getD n dSec).stop = _
      rw [hrec]
      have hgd : (s :: rest).getD (n + 1 + 1) dSec = rest.getD (n + 1) dSec :=
        rfl
      have hlen : (s :: rest).length = rest.length + 1 := rfl
      rw [hgd, hlen]
      by_cases hlt : n + 1 < rest.length
      · rw [if_pos hlt, if_pos (by omega)]
      · rw [if_neg hlt, if_neg (by omega)]

/-- C4 fails on the code as stated: in `cx4Text` a chapter heading stands
between the two articles, and the first article's `end` is resolved to the
chapter's `start` (6), which is neither the next article's `start` (12) nor
the document length (17). -/
theorem article_stop_not_next_article :
    (((parseDocumentStructure cx4Text).filter
        (fun s => decide (s.type = SType.article))).getD 0 dSec).stop = 6 ∧
    (((parseDocumentStructure cx4Text).filter
        (fun s => decide (s.type = SType.article))).getD 1 dSec).start = 12 ∧
    cx4Text.length = 17 ∧
    ((parseDocumentStructure cx4Text).filter
        (fun s => decide (s.type = SType.article))).length = 2 := by
  decide

/-- C4 (amended): in the output of `parse_document_structure` the article
sections are totally ordered by start offset, and every article's `end`
equals the start offset of the next *section in the list* — which may be a
chapter heading, not necessarily the next article — or the document length
when the article is the last section. -/
theorem sections_sorted_and_article_stop (t : Chars) :
    List.Pairwise (fun a b => a.start < b.start)
      ((parseDocumentStructure t).filter
        (fun s => decide (s.type = SType.article)))
    ∧ ∀ i, i < (parseDocumentStructure t).length →
        ((parseDocumentStructure t).getD i dSec).type = SType.article →
        ((parseDocumentStructure t).getD i dSec).stop =
          (if i + 1 < (parseDocumentStructure t).length
           then ((parseDocumentStructure t).getD (i + 1) dSec).start
           else t.length) := by
  constructor
  · apply List.Pairwise.filter
    have hscan := scan_pairwise t.length (splitLines t) 0 none []
    have h1 : List.Pairwise (α := Nat) (· < ·)
        ((scanSections t.length (splitLines t) 0 none []).map
          (fun s => s.start)) := List.pairwise_map.mpr hscan
    rw [← resolve_map_start t] at h1
    exact List.pairwise_map.mp h1
  · intro i hi htype
    rw [parseDocumentStructure] at hi htype ⊢
    rw [resolve_length] at hi
    rw [resolve_getD_type] at htype
    rw [resolve_length, resolve_getD_start]
    exact resolve_stop t _ i hi htype

/-- Witness for C4: applying the invariant at `cx4Text`, the first section
(an article) has its `end` equal to the next section's start. -/
theorem sections_stop_witness :
    ((parseDocumentStructure cx4Text).getD 0 dSec).stop = 6 := by
  have h := (sections_sorted_and_article_stop cx4Text).2 0 (by decide)
    (by decide)
  exact h.trans (by decide)

/-! ## Claims C5 and C10 -/

theorem rescore_map_fst (documents : List (Doc × Int)) (scores : List Int)
    (h : documents.length = scores.length) :
    (List.zipWith (fun (di : Doc × Int) sc => (di.1, sc))
      documents scores).map Prod.fst = documents.map Prod.fst := by
  induction documents generalizing scores with
  | nil => simp
  | cons d ds ih =>
    cases scores with
    | nil => simp at h
    | cons sc scs =>
      simp only [List.zipWith, List.map_cons]
      rw [ih scs (by simpa using h)]

/-- Internal rescored list of `rerank` before sorting. -/
theorem rerank_eq_branch (sf : Chars → Chars → Int) (q : Chars)
    (documents : List (Doc × Int)) (hd : ¬documents.isEmpty) (k : Nat)
    (hk : k ≠ 0) :
    rerank sf q documents (some k) =
      ((List.zipWith (fun (di : Doc × Int) sc => (di.1, sc)) documents
        ((documents.map (fun di => (q, di.1.text))).map
          (fun p => sf p.1 p.2))).insertionSort scoreGE).take k := by
  rw [rerank, if_neg hd]
  simp only [if_pos hk]

theorem rerank_eq_none (sf : Chars → Chars → Int) (q : Chars)
    (documents : List (Doc × Int)) (hd : ¬documents.isEmpty) :
    rerank sf q documents none =
      (List.zipWith (fun (di : Doc × Int) sc => (di.1, sc)) documents
        ((documents.map (fun di => (q, di.1.text))).map
          (fun p => sf p.1 p.2))).insertionSort scoreGE := by
  rw [rerank, if_neg hd]

/-- C5 (confirmed): for every query, candidate list and positive `top_k`,
the reranked output has `min top_k n` entries, its chunk identities form a
sub-multiset of the input candidates' chunk identities (reordering plus
truncation only), and it is sorted in descending order of the new relevance
score. -/
theorem rerank_topk_sorted_subset (sf : Chars → Chars → Int) (q : Chars)
    (documents : List (Doc × Int)) (k : Nat) (hk : 0 < k) :
    (rerank sf q documents (some k)).length = min k documents.length
    ∧ List.Subperm ((rerank sf q documents (some k)).map Prod.fst)
        (documents.map Prod.fst)
    ∧ List.Sorted scoreGE (rerank sf q documents (some k)) := by
  by_cases hd : documents.isEmpty
  · have hnil : documents = [] := List.isEmpty_iff.mp hd
    subst hnil
    refine ⟨by simp [rerank], by simp [rerank], by simp [rerank]⟩
  · rw [rerank_eq_branch sf q documents hd k (by omega)]
    set L := List.zipWith (fun (di : Doc × Int) sc => (di.1, sc)) documents
      ((documents.map (fun di => (q, di.1.text))).map
        (fun p => sf p.1 p.2)) with hL
    have hLlen : L.length = documents.length := by
      rw [hL, List.length_zipWith]
      simp
    have hperm : List.Perm (L.insertionSort scoreGE) L :=
      List.perm_insertionSort _ _
    have hmapfst : L.map Prod.fst = documents.map Prod.fst := by
      rw [hL]
      exact rescore_map_fst documents _ (by simp)
    refine ⟨?_, ?_, ?_⟩
    · rw [List.length_take, hperm.length_eq, hLlen]
    · have hsub : List.Sublist
          (((L.insertionSort scoreGE).take k).map Prod.fst)
          ((L.insertionSort scoreGE).map Prod.fst) :=
        (List.take_sublist k _).map Prod.fst
      have hp2 : List.Perm ((L.insertionSort scoreGE).map Prod.fst)
          (documents.map Prod.fst) := by
        rw [← hmapfst]
        exact hperm.map Prod.fst
      exact hsub.subperm.trans hp2.subperm
    · exact List.Pairwise.sublist (List.take_sublist k _)
        (List.sorted_insertionSort scoreGE L)

/-- Witness for C5: ten concrete candidates reranked with `top_k = 3`. -/
theorem rerank_topk_witness :
    (rerank sf0 cwQuestion cw5Docs (some 3)).length = min 3 cw5Docs.length
    ∧ List.Subperm ((rerank sf0 cwQuestion cw5Docs (some 3)).map Prod.fst)
        (cw5Docs.map Prod.fst)
    ∧ List.Sorted scoreGE (rerank sf0 cwQuestion cw5Docs (some 3)) :=
  rerank_topk_sorted_subset sf0 cwQuestion cw5Docs 3 (by decide)

/-- C10 (confirmed): `top_k = None` and `top_k = 0` are both falsy for the
truncation branch, so `rerank` performs no truncation and returns every
input candidate, rescored and sorted in descending score order; and `rerank`
on an empty candidate list returns `[]` for every `top_k` and every scoring
function (so without consulting the scoring model). -/
theorem rerank_falsy_topk_returns_all (sf : Chars → Chars → Int) (q : Chars)
    (documents : List (Doc × Int)) :
    rerank sf q documents none = rerank sf q documents (some 0)
    ∧ (rerank sf q documents none).length = documents.length
    ∧ List.Perm ((rerank sf q documents none).map Prod.fst)
        (documents.map Prod.fst)
    ∧ List.Sorted scoreGE (rerank sf q documents none)
    ∧ ∀ tk : Option Nat, rerank sf q [] tk = [] := by
  by_cases hd : documents.isEmpty
  · have hnil : documents = [] := List.isEmpty_iff.mp hd
    subst hnil
    exact ⟨rfl, by simp [rerank], by simp [rerank], by simp [rerank],
      fun tk => by simp [rerank]⟩
  · have hzero : rerank sf q documents (some 0) =
        rerank sf q documents none := by
      rw [rerank, rerank, if_neg hd, if_neg hd]
      simp
    rw [rerank_eq_none sf q documents hd]
    set L := List.zipWith (fun (di : Doc × Int) sc => (di.1, sc)) documents
      ((documents.map (fun di => (q, di.1.text))).map
        (fun p => sf p.1 p.2)) with hL
    have hLlen : L.length = documents.length := by
      rw [hL, List.length_zipWith]
      simp
    have hperm : List.Perm (L.insertionSort scoreGE) L :=
      List.perm_insertionSort _ _
    have hmapfst : L.map Prod.fst = documents.map Prod.fst := by
      rw [hL]
      exact rescore_map_fst documents _ (by simp)
    refine ⟨?_, ?_, ?_, ?_, fun tk => by simp [rerank]⟩
    · rw [hzero, rerank_eq_none sf q documents hd]
    · rw [hperm.length_eq, hLlen]
    · rw [← hmapfst]
      exact hperm.map Prod.fst
    · exact List.sorted_insertionSort scoreGE L

/-! ## Claim C6 -/

/-- C6 (confirmed): when no article section is recognised,
`chunk_by_structure` falls back to generic splitting, and every resulting
chunk carries empty `chapter_number`, `article_number` and `hierarchy_path`
and the flag `chunking_strategy = "general"` — for every external splitter,
size bounds and caller metadata. -/
theorem no_structure_fallback_fields (splitter : Chars → List Chars)
    (maxS minS ov : Nat) (t : Chars) (md : Metadata)
    (h : (parseDocumentStructure t).filter
      (fun s => decide (s.type = SType.article)) = []) :
    chunkByStructure splitter maxS minS ov t md =
      fallbackToGeneralChunking splitter t md
    ∧ ∀ c ∈ chunkByStructure splitter maxS minS ov t md,
        mfind c.metadata "chapter_number".toList = some (MVal.str []) ∧
        mfind c.metadata "article_number".toList = some (MVal.str []) ∧
        mfind c.metadata "hierarchy_path".toList = some (MVal.str []) ∧
        mfind c.metadata "chunking_strategy".toList =
          some (MVal.str "general".toList) := by
  have heq : chunkByStructure splitter maxS minS ov t md =
      fallbackToGeneralChunking splitter t md := by
    simp only [chunkByStructure]
    rw [h]
    rfl
  refine ⟨heq, ?_⟩
  rw [heq]
  intro c hc
  simp only [fallbackToGeneralChunking, List.mem_map] at hc
  obtain ⟨p, _, rfl⟩ := hc
  refine ⟨?_, ?_, ?_, ?_⟩
  · rw [mfind_cons_ne (by decide), mfind_cons_ne (by decide),
      mfind_cons_ne (by decide), mfind_cons_ne (by decide),
      mfind_cons_ne (by decide), mfind_cons_self]
  · rw [mfind_cons_ne (by decide), mfind_cons_ne (by decide),
      mfind_cons_ne (by decide), mfind_cons_self]
  · rw [mfind_cons_ne (by decide), mfind_cons_self]
  · rw [mfind_cons_self]

/-- Witness for C6: a text with no chapter/article markers takes the
fallback path. -/
theorem no_structure_fallback_witness :
    chunkByStructure sp0 800 200 150 cw6Text [] =
      fallbackToGeneralChunking sp0 cw6Text [] :=
  (no_structure_fallback_fields sp0 800 200 150 cw6Text [] (by decide)).1

/-! ## Claim C7 -/

/-- C7 (confirmed): searching an empty index returns the empty list (and, as
a total function, raises nothing), and when `top_k` is at least the index
size the search returns exactly the candidates passing the metadata filter —
all available candidates.  The collection query itself is modelled from the
spec (`colQuery`); `threshold` takes its default `None`. -/
theorem search_empty_and_overfetch (entries : List Doc) (dist : Doc → Int)
    (topK : Nat) (w : Option MFilter) :
    (entries = [] → vsSearch entries dist topK none w = [])
    ∧ (entries.length ≤ topK →
        List.Perm ((vsSearch entries dist topK none w).map Prod.fst)
          (entries.filter (fun d => wherePred w d.metadata))) := by
  constructor
  · rintro rfl
    rfl
  · intro htop
    by_cases hzero : entries.length = 0
    · have hnil : entries = [] := List.length_eq_zero.mp hzero
      subst hnil
      simp [vsSearch]
    · simp only [vsSearch]
      rw [if_neg hzero]
      have hcol : colQuery entries dist topK w =
          ((entries.filter (fun d => wherePred w d.metadata)).map
            (fun d => (d, dist d))).insertionSort distLE := by
        unfold colQuery
        apply List.take_of_length_le
        rw [(List.perm_insertionSort distLE _).length_eq, List.length_map]
        exact le_trans (List.length_filter_le _ _) htop
      rw [hcol]
      set S := ((entries.filter (fun d => wherePred w d.metadata)).map
        (fun d => (d, dist d))).insertionSort distLE with hS
      have hperm : List.Perm S
          ((entries.filter (fun d => wherePred w d.metadata)).map
            (fun d => (d, dist d))) := List.perm_insertionSort _ _
      by_cases hres : S.isEmpty
      · rw [if_pos hres]
        have hSnil : S = [] := List.isEmpty_iff.mp hres
        have hfn : (entries.filter (fun d => wherePred w d.metadata)).map
            (fun d => (d, dist d)) = [] := by
          have := hperm.symm
          rw [hSnil] at this
          exact this.eq_nil
        have hfnil : entries.filter (fun d => wherePred w d.metadata) = [] :=
          List.map_eq_nil_iff.mp hfn
        rw [hfnil]
        exact List.Perm.refl _
      · rw [if_neg hres]
        have hfilter : S.filter (fun r =>
            match (none : Option Int) with
            | none => true
            | some th => decide (r.2 ≤ th)) = S := List.filter_true S
        rw [hfilter]
        have h1 : List.Perm (S.map Prod.fst)
            (((entries.filter (fun d => wherePred w d.metadata)).map
              (fun d => (d, dist d))).map Prod.fst) := hperm.map Prod.fst
        have h2 : ((entries.filter (fun d => wherePred w d.metadata)).map
            (fun d => (d, dist d))).map Prod.fst =
            entries.filter (fun d => wherePred w d.metadata) := by
          rw [List.map_map]
          exact List.map_id'' (fun _ => rfl) _
        rw [h2] at h1
        exact h1

/-- Witness for C7: the empty index returns `[]`, and with one indexed
document and `top_k = 5` all candidates come back. -/
theorem search_empty_and_overfetch_witness :
    vsSearch [] dist0 5 none none = [] ∧
    List.Perm ((vsSearch [cw7d] dist0 5 none none).map Prod.fst)
      ([cw7d].filter (fun d => wherePred none d.metadata)) :=
  ⟨(search_empty_and_overfetch [] dist0 5 none).1 rfl,
    (search_empty_and_overfetch [cw7d] dist0 5 none).2 (by decide)⟩

/-! ## Claim C8 -/

/-- C8 (confirmed): when the external generation call raises,
`LLMGenerator.generate` returns normally with an answer string embedding the
failure reason, and `RAGPipeline.query` — being a total function built on
that catch — never surfaces the raw exception: its answer is either the
embedded-reason error answer or the fixed no-documents answer. -/
theorem generation_failure_degraded_answer
    (genCall : Chars → Chars → Except Chars Chars) (question e : Chars)
    (herr : ∀ s u, genCall s u = Except.error e) :
    (∀ context, llmGenerate genCall context question = genErrorMsg ++ e)
    ∧ ∀ (entries : List Doc) (dist : Doc → Int)
        (rr : Option (Chars → Chars → Int)) (topK : Nat) (rs : Bool),
        (pipelineQuery entries dist rr genCall question topK rs).answer =
            genErrorMsg ++ e
        ∨ (pipelineQuery entries dist rr genCall question topK rs).answer =
            noDocsAnswer := by
  have hgen : ∀ context, llmGenerate genCall context question =
      genErrorMsg ++ e := by
    intro context
    rw [llmGenerate, herr]
  refine ⟨hgen, ?_⟩
  intro entries dist rr topK rs
  cases rr with
  | none =>
    simp only [pipelineQuery]
    by_cases hemp : (vsSearch entries dist topK none none).isEmpty
    · rw [if_pos hemp]
      right
      rfl
    · rw [if_neg hemp]
      left
      exact hgen _
  | some sf =>
    simp only [pipelineQuery]
    by_cases hemp : (vsSearch entries dist RERANK_TOP_K none none).isEmpty
    · rw [if_pos hemp]
      right
      rfl
    · rw [if_neg hemp]
      left
      exact hgen _

/-- Witness for C8: a generation call that always raises `"서버 오류"`
yields the degraded answer both from `generate` and through the pipeline. -/
theorem generation_failure_witness :
    llmGenerate gcErr cwContext cwQuestion =
      genErrorMsg ++ "서버 오류".toList
    ∧ ((pipelineQuery [cw7d] dist0 none gcErr cwQuestion 5 true).answer =
          genErrorMsg ++ "서버 오류".toList
        ∨ (pipelineQuery [cw7d] dist0 none gcErr cwQuestion 5 true).answer =
          noDocsAnswer) := by
  have h := generation_failure_degraded_answer gcErr cwQuestion
    "서버 오류".toList (fun _ _ => rfl)
  exact ⟨h.1 cwContext, h.2 [cw7d] dist0 none 5 true⟩

/-! ## Claim C9 -/

/-- C9 fails on the code as stated: for the second article of `cx9Text`, the
forward path labels its chunk `"제1장 총칙 > 제2조 (범위)"`, but the
backward scan from the chunk's start offset only sees text strictly before
the article's own heading line and reports the previous article, producing
`"제1장 총칙 > 제1조 (목적)"`. -/
theorem hierarchy_paths_diverge :
    buildHierarchyPath
        (((parseDocumentStructure cx9Text).filter
          (fun s => decide (s.type = SType.article))).getD 1 dSec) ≠
      (findStructureContext cx9Text
        (((parseDocumentStructure cx9Text).filter
          (fun s => decide (s.type = SType.article))).getD 1 dSec).start
        ).hierarchy_path := by
  decide

/-- C9 (amended): the two paths format the hierarchy string identically from
the chapter/article identifiers they resolve — for all identifier values the
forward builder and the backward-scan builder give byte-identical strings —
but they can resolve different identifiers for the same logical position
(the backward scan excludes the chunk's own heading line and matches
markers anywhere in a line), so equal `hierarchy_path` strings are
guaranteed only when both paths resolve the same identifiers. -/
theorem hierarchy_formatting_agrees (cn ct an aT : Chars) :
    buildHierarchyPath
        ⟨SType.article, an, aT, cn, ct, an, aT, 0, 0, []⟩ =
      backwardHierarchyPath (if cn.isEmpty then none else some cn) ct
        (if an.isEmpty then none else some an) aT := by
  cases cn <;> cases an <;>
    simp [buildHierarchyPath, backwardHierarchyPath]

end OWPML
